import Mathlib

/-!
Shallow embedding of the core of the attendance backend
(`backend/face_utils.py`, `backend/app/dependencies.py`,
`backend/app/utils/websocket.py`) and proofs about it.

Numeric similarity values are modelled over `ℚ` (the Python code uses
floats); the cosine kernel itself (normalisation + dot product of numpy
arrays) is abstracted as an explicit function parameter, since the claims
under study concern the surrounding control flow, not floating-point
arithmetic.
-/

/-! ## Matching engine (`backend/face_utils.py`) -/

/-- Embedding of `FaceRecognition.compare_faces`: if either embedding is
`None` the similarity is `0.0`; otherwise the cosine kernel (abstracted as
the parameter `cosine`, standing for the normalise-and-dot computation on
numpy arrays) is applied. -/
def compare_faces {ε : Type} (cosine : ε → ε → ℚ) :
    Option ε → Option ε → ℚ
  | none, _ => 0
  | some _, none => 0
  | some e1, some e2 => cosine e1 e2

/-- A stored user record as consumed by `find_matches_for_embeddings`:
only its `embedding` field (a serialized embedding of type `σ`) is read. -/
structure StoredUser (σ : Type) where
  embedding : σ
deriving DecidableEq

/-- One entry of the list returned by `find_matches_for_embeddings`:
the Python dict `\x7b'user': ..., 'similarity': ..., 'bbox': ...\x7d`. -/
structure MatchEntry (σ β : Type) where
  user : StoredUser σ
  similarity : ℚ
  bbox : β
deriving DecidableEq

/-- Embedding of `FaceRecognition.find_matches_for_embeddings`: for each
`(query_embedding, bbox)` pair it scans `users`, tracking
`(best_match, best_similarity)` starting from `(None, 0.0)` and updating
only on strictly greater similarity; it appends a match entry when
`best_similarity >= threshold` and a `best_match` was recorded.
`str_to_embedding` stands for `self.str_to_embedding` (JSON decoding) and
`cosine` for the numeric kernel of `self.compare_faces`. -/
def find_matches_for_embeddings {ε σ β : Type}
    (cosine : ε → ε → ℚ) (str_to_embedding : σ → ε)
    (query_embeddings : List (ε × β)) (users : List (StoredUser σ))
    (threshold : ℚ) : List (MatchEntry σ β) :=
  query_embeddings.foldl (fun ms qb =>
    let best := users.foldl (fun acc user =>
      let similarity := compare_faces cosine (some qb.1)
        (some (str_to_embedding user.embedding))
      if acc.2 < similarity then (some user, similarity) else acc)
      ((none : Option (StoredUser σ)), (0 : ℚ))
    match best.1 with
    | some user =>
        if threshold ≤ best.2 then ms ++ [⟨user, best.2, qb.2⟩]
        else ms
    | none => ms) []

/-- The per-user scanning step of `find_matches_for_embeddings`, with the
similarity function for the current query face abstracted as `sim`. -/
def matchStep {σ : Type} (sim : StoredUser σ → ℚ)
    (acc : Option (StoredUser σ) × ℚ) (user : StoredUser σ) :
    Option (StoredUser σ) × ℚ :=
  if acc.2 < sim user then (some user, sim user) else acc

/-- The similarity function used by `find_matches_for_embeddings` for a
fixed query embedding `q`. -/
def simOf {ε σ : Type} (cosine : ε → ε → ℚ) (str_to_embedding : σ → ε)
    (q : ε) (user : StoredUser σ) : ℚ :=
  compare_faces cosine (some q) (some (str_to_embedding user.embedding))

/-- The per-face contribution of `find_matches_for_embeddings`: the inner
scan over `users` followed by the threshold/recorded-candidate test. -/
def emitCode {ε σ β : Type} (cosine : ε → ε → ℚ) (str_to_embedding : σ → ε)
    (users : List (StoredUser σ)) (threshold : ℚ) (qb : ε × β) :
    Option (MatchEntry σ β) :=
  let best := users.foldl (matchStep (simOf cosine str_to_embedding qb.1))
    ((none : Option (StoredUser σ)), (0 : ℚ))
  match best.1 with
  | some user => if threshold ≤ best.2 then some ⟨user, best.2, qb.2⟩ else none
  | none => none

/-- The body of the outer fold of `find_matches_for_embeddings`, named so
the fold can be reasoned about; `find_matches_body_eq` checks it is
definitionally the loop body of the source transcription. -/
def faceBody {ε σ β : Type} (cosine : ε → ε → ℚ) (str_to_embedding : σ → ε)
    (users : List (StoredUser σ)) (threshold : ℚ)
    (ms : List (MatchEntry σ β)) (qb : ε × β) : List (MatchEntry σ β) :=
  let best := users.foldl (fun acc user =>
    let similarity := compare_faces cosine (some qb.1)
      (some (str_to_embedding user.embedding))
    if acc.2 < similarity then (some user, similarity) else acc)
    ((none : Option (StoredUser σ)), (0 : ℚ))
  match best.1 with
  | some user =>
      if threshold ≤ best.2 then ms ++ [⟨user, best.2, qb.2⟩]
      else ms
  | none => ms

lemma find_matches_body_eq {ε σ β : Type}
    (cosine : ε → ε → ℚ) (str_to_embedding : σ → ε)
    (query_embeddings : List (ε × β)) (users : List (StoredUser σ))
    (threshold : ℚ) :
    find_matches_for_embeddings cosine str_to_embedding query_embeddings
      users threshold =
    query_embeddings.foldl
      (faceBody cosine str_to_embedding users threshold) [] := rfl

lemma emit_match_shape {σ β : Type} (threshold : ℚ)
    (ms : List (MatchEntry σ β)) (bbox : β)
    (best : Option (StoredUser σ) × ℚ) :
    (match best.1 with
     | some user =>
         if threshold ≤ best.2 then ms ++ [⟨user, best.2, bbox⟩] else ms
     | none => ms) =
    (match (match best.1 with
            | some user =>
                if threshold ≤ best.2 then
                  some (⟨user, best.2, bbox⟩ : MatchEntry σ β)
                else none
            | none => none) with
     | some e => ms ++ [e]
     | none => ms) := by
  obtain ⟨bo, bs⟩ := best
  cases bo with
  | none => rfl
  | some u => by_cases ht : threshold ≤ bs <;> simp [ht]

lemma faceBody_emitCode {ε σ β : Type}
    (cosine : ε → ε → ℚ) (str_to_embedding : σ → ε)
    (users : List (StoredUser σ)) (threshold : ℚ)
    (ms : List (MatchEntry σ β)) (qb : ε × β) :
    faceBody cosine str_to_embedding users threshold ms qb =
      (match emitCode cosine str_to_embedding users threshold qb with
       | some e => ms ++ [e]
       | none => ms) :=
  emit_match_shape threshold ms qb.2
    (users.foldl (matchStep (simOf cosine str_to_embedding qb.1))
      ((none : Option (StoredUser σ)), (0 : ℚ)))

/-- `find_matches_for_embeddings` processes the query faces independently:
it is the `filterMap` of the per-face emission over the face list. -/
lemma find_matches_eq_filterMap {ε σ β : Type}
    (cosine : ε → ε → ℚ) (str_to_embedding : σ → ε)
    (query_embeddings : List (ε × β)) (users : List (StoredUser σ))
    (threshold : ℚ) :
    find_matches_for_embeddings cosine str_to_embedding query_embeddings
      users threshold =
    query_embeddings.filterMap
      (emitCode cosine str_to_embedding users threshold) := by
  rw [find_matches_body_eq]
  suffices h : ∀ (qs : List (ε × β)) (init : List (MatchEntry σ β)),
      qs.foldl (faceBody cosine str_to_embedding users threshold) init =
      init ++ qs.filterMap (emitCode cosine str_to_embedding users threshold) by
    simpa using h query_embeddings []
  intro qs
  induction qs with
  | nil => intro init; simp
  | cons qb qs ih =>
      intro init
      rw [List.foldl_cons, faceBody_emitCode, List.filterMap_cons]
      cases h : emitCode cosine str_to_embedding users threshold qb with
      | none => simp only [h]; rw [ih]
      | some e => simp only [h]; rw [ih, List.append_assoc]; rfl

/-- Specification-side best-match scan, written from the spec's words: for
each face "scan all candidates, track the maximum similarity and its
candidate (ties keep the first-seen maximum)". Used only to compare with
the source-derived `find_matches_for_embeddings`. -/
def specStep {σ : Type} (sim : StoredUser σ → ℚ)
    (acc : Option (StoredUser σ × ℚ)) (user : StoredUser σ) :
    Option (StoredUser σ × ℚ) :=
  match acc with
  | none => some (user, sim user)
  | some bm => if bm.2 < sim user then some (user, sim user) else acc

/-- Specification-side per-face emission: "emit a MatchResult only if the
maximum similarity ≥ threshold". -/
def emitSpec {ε σ β : Type} (cosine : ε → ε → ℚ) (str_to_embedding : σ → ε)
    (users : List (StoredUser σ)) (threshold : ℚ) (qb : ε × β) :
    Option (MatchEntry σ β) :=
  match users.foldl (specStep (simOf cosine str_to_embedding qb.1)) none with
  | none => none
  | some bm => if threshold ≤ bm.2 then some ⟨bm.1, bm.2, qb.2⟩ else none

/-- Specification-side matcher: each detected face processed independently,
faces with no qualifying candidate silently dropped. -/
def specFindMatches {ε σ β : Type}
    (cosine : ε → ε → ℚ) (str_to_embedding : σ → ε)
    (query_embeddings : List (ε × β)) (users : List (StoredUser σ))
    (threshold : ℚ) : List (MatchEntry σ β) :=
  query_embeddings.filterMap (emitSpec cosine str_to_embedding users threshold)

/-- Simulation relation between the source scan state (which starts at
`(None, 0.0)`) and the spec scan state (which starts empty). -/
def bestRel {σ : Type} (a : Option (StoredUser σ) × ℚ)
    (b : Option (StoredUser σ × ℚ)) : Prop :=
  (a = (none, 0) ∧ (b = none ∨ ∃ u m, b = some (u, m) ∧ m ≤ 0)) ∨
  (∃ u m, 0 < m ∧ a = (some u, m) ∧ b = some (u, m))

lemma bestRel_step {σ : Type} (sim : StoredUser σ → ℚ)
    (a : Option (StoredUser σ) × ℚ) (b : Option (StoredUser σ × ℚ))
    (u : StoredUser σ) (h : bestRel a b) :
    bestRel (matchStep sim a u) (specStep sim b u) := by
  rcases h with ⟨ha, hb | ⟨v, m, hb, hm⟩⟩ | ⟨v, m, hm, ha, hb⟩
  · subst ha; subst hb
    unfold matchStep specStep
    by_cases hs : (0 : ℚ) < sim u
    · right; exact ⟨u, sim u, hs, by simp [hs], rfl⟩
    · left
      constructor
      · simp [hs]
      · right; exact ⟨u, sim u, rfl, not_lt.1 hs⟩
  · subst ha; subst hb
    unfold matchStep specStep
    by_cases hs : m < sim u
    · by_cases hp : (0 : ℚ) < sim u
      · right; exact ⟨u, sim u, hp, by simp [hp], by simp [hs]⟩
      · left
        constructor
        · simp [hp]
        · right; exact ⟨u, sim u, by simp [hs], not_lt.1 hp⟩
    · left
      constructor
      · have hs0 : ¬ (0 : ℚ) < sim u := fun hc => hs (lt_of_le_of_lt hm hc)
        simp [hs0]
      · right; exact ⟨v, m, by simp [hs], hm⟩
  · subst ha; subst hb
    unfold matchStep specStep
    by_cases hs : m < sim u
    · right; exact ⟨u, sim u, lt_trans hm hs, by simp [hs], by simp [hs]⟩
    · right; exact ⟨v, m, hm, by simp [hs], by simp [hs]⟩

lemma bestRel_foldl {σ : Type} (sim : StoredUser σ → ℚ)
    (us : List (StoredUser σ)) :
    ∀ (a : Option (StoredUser σ) × ℚ) (b : Option (StoredUser σ × ℚ)),
    bestRel a b → bestRel (us.foldl (matchStep sim) a) (us.foldl (specStep sim) b) := by
  induction us with
  | nil => intro a b h; exact h
  | cons u us ih =>
      intro a b h
      exact ih _ _ (bestRel_step sim a b u h)

lemma emitCode_eq_emitSpec {ε σ β : Type}
    (cosine : ε → ε → ℚ) (str_to_embedding : σ → ε)
    (users : List (StoredUser σ)) (threshold : ℚ) (qb : ε × β)
    (ht : 0 < threshold) :
    emitCode cosine str_to_embedding users threshold qb =
    emitSpec cosine str_to_embedding users threshold qb := by
  unfold emitCode emitSpec
  have h := bestRel_foldl (simOf cosine str_to_embedding qb.1) users
    ((none : Option (StoredUser σ)), (0 : ℚ)) none (Or.inl ⟨rfl, Or.inl rfl⟩)
  rcases h with ⟨ha, hb | ⟨v, m, hb, hm⟩⟩ | ⟨v, m, hm, ha, hb⟩
  · rw [ha, hb]
  · rw [ha, hb]
    have : ¬ threshold ≤ m := fun hc => absurd (le_trans hc hm) (not_le.2 ht)
    simp [this]
  · rw [ha, hb]

/-- C2 (amended): for every strictly positive threshold,
`find_matches_for_embeddings` coincides with the specification-side
matcher (independent per-face processing, first-encountered maximum wins
ties, emission exactly when the maximum similarity reaches the threshold,
unmatched faces silently dropped). -/
theorem find_matches_refines_spec {ε σ β : Type}
    (cosine : ε → ε → ℚ) (str_to_embedding : σ → ε)
    (query_embeddings : List (ε × β)) (users : List (StoredUser σ))
    (threshold : ℚ) (ht : 0 < threshold) :
    find_matches_for_embeddings cosine str_to_embedding query_embeddings
      users threshold =
    specFindMatches cosine str_to_embedding query_embeddings users
      threshold := by
  rw [find_matches_eq_filterMap]
  unfold specFindMatches
  have h : emitCode cosine str_to_embedding users threshold =
      (emitSpec cosine str_to_embedding users threshold : ε × β → _) :=
    funext fun qb => emitCode_eq_emitSpec cosine str_to_embedding users
      threshold qb ht
  rw [h]

/-- Witness for `find_matches_refines_spec` at a concrete input. -/
theorem find_matches_refines_spec_witness :
    (0 : ℚ) < 1/2 ∧
    find_matches_for_embeddings (fun a b => a * b) id
      [((1 : ℚ), (0 : Nat))] [⟨(1 : ℚ)⟩] (1/2) =
    specFindMatches (fun a b => a * b) id
      [((1 : ℚ), (0 : Nat))] [⟨(1 : ℚ)⟩] (1/2) :=
  ⟨by norm_num,
   find_matches_refines_spec (fun a b => a * b) id
     [((1 : ℚ), (0 : Nat))] [⟨(1 : ℚ)⟩] (1/2) (by norm_num)⟩

/-- Counterexample to C2 as stated: at threshold 0 (the claim quantifies
over every threshold), a face whose only candidate has similarity 0 has
maximum similarity ≥ threshold, yet the source emits nothing — the code
additionally requires a recorded candidate, i.e. strictly positive best
similarity — while the spec-side matcher emits the match. -/
theorem find_matches_threshold_zero_counterexample :
    find_matches_for_embeddings (fun _ _ => (0 : ℚ)) id
      [((1 : ℚ), (0 : Nat))] [⟨(1 : ℚ)⟩] 0 = [] ∧
    specFindMatches (fun _ _ => (0 : ℚ)) id
      [((1 : ℚ), (0 : Nat))] [⟨(1 : ℚ)⟩] 0 = [⟨⟨1⟩, 0, 0⟩] := by
  constructor <;> rfl

/-- C9: `compare_faces` returns similarity 0.0 whenever either of its two
inputs is absent, for every cosine kernel and every other input. -/
theorem compare_faces_none {ε : Type} (cosine : ε → ε → ℚ) (x : Option ε) :
    compare_faces cosine none x = 0 ∧ compare_faces cosine x none = 0 := by
  cases x <;> exact ⟨rfl, rfl⟩

lemma emit_opt_cases {σ β : Type} (threshold : ℚ) (bbox : β)
    (best : Option (StoredUser σ) × ℚ) (m : MatchEntry σ β)
    (he : (match best.1 with
           | some user =>
               if threshold ≤ best.2 then
                 some (⟨user, best.2, bbox⟩ : MatchEntry σ β)
               else none
           | none => none) = some m) :
    best.1 = some m.user ∧ m.similarity = best.2 ∧ threshold ≤ best.2 := by
  obtain ⟨bo, bs⟩ := best
  cases bo with
  | none => exact absurd he (by simp)
  | some u =>
      by_cases ht : threshold ≤ bs
      · simp only [ht, if_true, Option.some.injEq] at he
        rw [← he]
        exact ⟨rfl, rfl, ht⟩
      · simp [ht] at he

lemma codeBest_inv {σ : Type} (sim : StoredUser σ → ℚ)
    (us : List (StoredUser σ)) :
    ∀ (acc : Option (StoredUser σ) × ℚ), 0 ≤ acc.2 →
    (acc.1 ≠ none → 0 < acc.2) →
    0 ≤ (us.foldl (matchStep sim) acc).2 ∧
    ((us.foldl (matchStep sim) acc).1 ≠ none →
      0 < (us.foldl (matchStep sim) acc).2) := by
  induction us with
  | nil => intro acc h1 h2; exact ⟨h1, h2⟩
  | cons u us ih =>
      intro acc h1 h2
      rw [List.foldl_cons]
      by_cases hs : acc.2 < sim u
      · have hstep : matchStep sim acc u = (some u, sim u) := by
          unfold matchStep; rw [if_pos hs]
        rw [hstep]
        have hp : 0 < sim u := lt_of_le_of_lt h1 hs
        exact ih (some u, sim u) (le_of_lt hp) (fun _ => hp)
      · have hstep : matchStep sim acc u = acc := by
          unfold matchStep; rw [if_neg hs]
        rw [hstep]
        exact ih acc h1 h2

lemma codeBest_nonpos {σ : Type} (sim : StoredUser σ → ℚ)
    (us : List (StoredUser σ)) (hsim : ∀ u ∈ us, sim u ≤ 0) :
    ∀ (acc : Option (StoredUser σ) × ℚ), 0 ≤ acc.2 →
    us.foldl (matchStep sim) acc = acc := by
  induction us with
  | nil => intro acc _; rfl
  | cons u us ih =>
      intro acc h1
      rw [List.foldl_cons]
      have hu : sim u ≤ 0 := hsim u (List.mem_cons_self u us)
      have hs : ¬ acc.2 < sim u := not_lt.2 (le_trans hu h1)
      have hstep : matchStep sim acc u = acc := by
        unfold matchStep; rw [if_neg hs]
      rw [hstep]
      exact ih (fun v hv => hsim v (List.mem_cons_of_mem u hv)) acc h1

/-- C10: `find_matches_for_embeddings` never emits a match whose best
similarity is not strictly positive; a face whose similarity to every
candidate is ≤ 0 — in particular any face matched against an empty
candidate list — contributes no match entry and no error, for every
threshold (including thresholds ≤ 0). -/
theorem find_matches_positive_similarity {ε σ β : Type}
    (cosine : ε → ε → ℚ) (str_to_embedding : σ → ε)
    (query_embeddings : List (ε × β)) (users : List (StoredUser σ))
    (threshold : ℚ) :
    (∀ m ∈ find_matches_for_embeddings cosine str_to_embedding
        query_embeddings users threshold, 0 < m.similarity) ∧
    ((∀ qb ∈ query_embeddings, ∀ u ∈ users,
        compare_faces cosine (some qb.1)
          (some (str_to_embedding u.embedding)) ≤ 0) →
      find_matches_for_embeddings cosine str_to_embedding query_embeddings
        users threshold = []) ∧
    find_matches_for_embeddings cosine str_to_embedding query_embeddings
      ([] : List (StoredUser σ)) threshold = [] := by
  refine ⟨?_, ?_, ?_⟩
  · intro m hm
    rw [find_matches_eq_filterMap] at hm
    obtain ⟨qb, _, he⟩ := List.mem_filterMap.1 hm
    have hc := emit_opt_cases threshold qb.2
      (users.foldl (matchStep (simOf cosine str_to_embedding qb.1))
        ((none : Option (StoredUser σ)), (0 : ℚ))) m he
    have hinv := codeBest_inv (simOf cosine str_to_embedding qb.1) users
      ((none : Option (StoredUser σ)), (0 : ℚ)) le_rfl (by simp)
    rw [hc.2.1]
    exact hinv.2 (by rw [hc.1]; simp)
  · intro hall
    rw [find_matches_eq_filterMap]
    rw [List.filterMap_eq_nil_iff]
    intro qb hqb
    unfold emitCode
    have hz := codeBest_nonpos (simOf cosine str_to_embedding qb.1) users
      (fun u hu => hall qb hqb u hu)
      ((none : Option (StoredUser σ)), (0 : ℚ)) le_rfl
    rw [hz]
  · rw [find_matches_eq_filterMap]
    rw [List.filterMap_eq_nil_iff]
    intro qb _
    rfl

/-- Witness for `find_matches_positive_similarity`: a face whose only
candidate has similarity -1 produces no match even at threshold -5. -/
theorem find_matches_positive_similarity_witness :
    (∀ qb ∈ [((1 : ℚ), (0 : Nat))], ∀ u ∈ [(⟨(-1 : ℚ)⟩ : StoredUser ℚ)],
      compare_faces (fun a b => a * b) (some qb.1)
        (some (id u.embedding)) ≤ 0) ∧
    find_matches_for_embeddings (fun a b => a * b) id
      [((1 : ℚ), (0 : Nat))] [⟨(-1 : ℚ)⟩] (-5) = [] := by
  have hall : ∀ qb ∈ [((1 : ℚ), (0 : Nat))],
      ∀ u ∈ [(⟨(-1 : ℚ)⟩ : StoredUser ℚ)],
      compare_faces (fun a b => a * b) (some qb.1)
        (some (id u.embedding)) ≤ 0 := by
    intro qb hqb u hu
    simp only [List.mem_singleton] at hqb hu
    subst hqb; subst hu
    norm_num [compare_faces]
  exact ⟨hall,
    (find_matches_positive_similarity (fun a b => a * b) id
      [((1 : ℚ), (0 : Nat))] [⟨(-1 : ℚ)⟩] (-5)).2.1 hall⟩

/-! ## Directory cache (`backend/app/dependencies.py`) -/

/-- An employee record as held by the employee cache; only its `objectId`
key is read by the caching logic, the rest is opaque payload. -/
structure Employee where
  objectId : String
  payload : String
deriving DecidableEq

/-- Source constant `EMPLOYEE_CACHE_TTL = 300` (seconds). -/
def EMPLOYEE_CACHE_TTL : ℚ := 300

/-- The cache state shared through the manager: the `employee_cache` dict
(modelled as an insertion-ordered association list keyed by objectId) and
`employee_cache_last_updated.value`. -/
structure EmployeeCacheState where
  employee_cache : List (String × Employee)
  last_updated : ℚ
deriving DecidableEq

/-- Python dict assignment `d[k] = v`: overwrite in place when the key is
present, append otherwise. -/
def dictSet (d : List (String × Employee)) (k : String) (v : Employee) :
    List (String × Employee) :=
  if d.any (fun p => p.1 == k) then
    d.map (fun p => if p.1 == k then (p.1, v) else p)
  else d ++ [(k, v)]

/-- `employee_cache.update(...)` applied to the cleared dict: insert each
fetched employee keyed by its objectId, in fetch order. -/
def dictOfEmployees (es : List Employee) : List (String × Employee) :=
  es.foldl (fun d e => dictSet d e.objectId e) []

/-- Embedding of `get_cached_employees`: `query` stands for the external
`Employee().query()` bulk read (`.error` when that call raises). The
result triple is (value delivered to the caller, cache state after the
call, whether a bulk fetch was performed). On the refresh path the clear
and update happen only after `query` returns, so a raising fetch leaves
the state untouched. -/
def get_cached_employees (query : Except String (List Employee))
    (current_time : ℚ) (s : EmployeeCacheState) :
    Except String (List Employee) × EmployeeCacheState × Bool :=
  if EMPLOYEE_CACHE_TTL < current_time - s.last_updated ∨
      s.employee_cache = [] then
    match query with
    | .error e => (.error e, s, true)
    | .ok employees =>
        let cache := dictOfEmployees employees
        (.ok (cache.map Prod.snd), ⟨cache, current_time⟩, true)
  else (.ok (s.employee_cache.map Prod.snd), s, false)

lemma get_cached_employees_fresh (query : Except String (List Employee))
    (current_time : ℚ) (s : EmployeeCacheState)
    (hfresh : ¬ EMPLOYEE_CACHE_TTL < current_time - s.last_updated)
    (hne : s.employee_cache ≠ []) :
    get_cached_employees query current_time s =
      (.ok (s.employee_cache.map Prod.snd), s, false) := by
  unfold get_cached_employees
  rw [if_neg (by intro h; rcases h with h | h; exact hfresh h; exact hne h)]

lemma get_cached_employees_ok_values
    (query : Except String (List Employee)) (current_time : ℚ)
    (s : EmployeeCacheState) (vs : List Employee)
    (h : (get_cached_employees query current_time s).1 = .ok vs) :
    (get_cached_employees query current_time s).2.1.employee_cache.map
      Prod.snd = vs := by
  unfold get_cached_employees at h ⊢
  by_cases hc : EMPLOYEE_CACHE_TTL < current_time - s.last_updated ∨
      s.employee_cache = []
  · rw [if_pos hc] at h ⊢
    cases query with
    | error e => exact absurd h (by simp)
    | ok es => simpa using h
  · rw [if_neg hc] at h ⊢
    simpa using h

/-- C4 (amended): a call with an expired TTL or an empty snapshot performs
the bulk fetch, replaces the snapshot as a unit, advances the timestamp
and returns the new snapshot values; otherwise no fetch happens and the
existing snapshot values are returned; and a second call within one TTL
window of a successful call performs no second fetch and returns the
identical snapshot, provided the snapshot held after the first call is
nonempty (an empty snapshot always triggers a fetch). -/
theorem get_cached_employees_spec
    (q1 q2 : Except String (List Employee)) (t0 t1 : ℚ)
    (s : EmployeeCacheState) :
    (∀ es, (EMPLOYEE_CACHE_TTL < t0 - s.last_updated ∨
        s.employee_cache = []) → q1 = .ok es →
      get_cached_employees q1 t0 s =
        (.ok ((dictOfEmployees es).map Prod.snd),
          ⟨dictOfEmployees es, t0⟩, true)) ∧
    (¬ (EMPLOYEE_CACHE_TTL < t0 - s.last_updated ∨
        s.employee_cache = []) →
      get_cached_employees q1 t0 s =
        (.ok (s.employee_cache.map Prod.snd), s, false)) ∧
    (∀ vs, (get_cached_employees q1 t0 s).1 = .ok vs →
      ¬ EMPLOYEE_CACHE_TTL <
          t1 - (get_cached_employees q1 t0 s).2.1.last_updated →
      (get_cached_employees q1 t0 s).2.1.employee_cache ≠ [] →
      get_cached_employees q2 t1 (get_cached_employees q1 t0 s).2.1 =
        (.ok vs, (get_cached_employees q1 t0 s).2.1, false)) := by
  refine ⟨?_, ?_, ?_⟩
  · intro es hc hq
    subst hq
    unfold get_cached_employees
    rw [if_pos hc]
  · intro hc
    unfold get_cached_employees
    rw [if_neg hc]
  · intro vs hok hfresh hne
    have hvals := get_cached_employees_ok_values q1 t0 s vs hok
    rw [get_cached_employees_fresh q2 t1 _ hfresh hne, hvals]

/-- Witness for `get_cached_employees_spec`: a fetch at time 400 on an
empty cache, then a call at time 500 that hits the fresh snapshot. -/
theorem get_cached_employees_spec_witness :
    ((get_cached_employees (.ok [⟨"e1", "x"⟩]) 400 ⟨[], 0⟩).1 =
      .ok [⟨"e1", "x"⟩] ∧
    ¬ EMPLOYEE_CACHE_TTL < (500 : ℚ) -
        (get_cached_employees (.ok [⟨"e1", "x"⟩]) 400 ⟨[], 0⟩).2.1.last_updated ∧
    (get_cached_employees (.ok [⟨"e1", "x"⟩]) 400 ⟨[], 0⟩).2.1.employee_cache ≠ []) ∧
    get_cached_employees (.ok []) 500
        (get_cached_employees (.ok [⟨"e1", "x"⟩]) 400 ⟨[], 0⟩).2.1 =
      (.ok [⟨"e1", "x"⟩],
        (get_cached_employees (.ok [⟨"e1", "x"⟩]) 400 ⟨[], 0⟩).2.1, false) := by
  have hfirst : get_cached_employees (.ok [⟨"e1", "x"⟩]) 400
      (⟨[], 0⟩ : EmployeeCacheState) =
      (.ok [⟨"e1", "x"⟩], ⟨[("e1", ⟨"e1", "x"⟩)], 400⟩, true) := by
    unfold get_cached_employees
    rw [if_pos (Or.inr rfl)]
    rfl
  have h1 : (get_cached_employees (.ok [⟨"e1", "x"⟩]) 400
      (⟨[], 0⟩ : EmployeeCacheState)).1 = .ok [⟨"e1", "x"⟩] := by
    rw [hfirst]
  have h2 : ¬ EMPLOYEE_CACHE_TTL < (500 : ℚ) -
      (get_cached_employees (.ok [⟨"e1", "x"⟩]) 400
        (⟨[], 0⟩ : EmployeeCacheState)).2.1.last_updated := by
    rw [hfirst]
    show ¬ (300 : ℚ) < 500 - 400
    norm_num
  have h3 : (get_cached_employees (.ok [⟨"e1", "x"⟩]) 400
      (⟨[], 0⟩ : EmployeeCacheState)).2.1.employee_cache ≠ [] := by
    rw [hfirst]
    simp
  exact ⟨⟨h1, h2, h3⟩,
    (get_cached_employees_spec (.ok [⟨"e1", "x"⟩]) (.ok []) 400 500
      ⟨[], 0⟩).2.2 [⟨"e1", "x"⟩] h1 h2 h3⟩

/-- Counterexample to C4 as stated: when the reference population is
empty, the snapshot after a refresh is empty, so a second call one second
later — well inside the TTL window — performs a second fetch. -/
theorem get_cached_employees_empty_refetch_counterexample :
    (get_cached_employees (.ok []) 401
      ((get_cached_employees (.ok []) 400 ⟨[], 0⟩).2.1)).2.2 = true ∧
    (401 : ℚ) - (get_cached_employees (.ok []) 400
      (⟨[], 0⟩ : EmployeeCacheState)).2.1.last_updated ≤
      EMPLOYEE_CACHE_TTL := by
  have hfirst : get_cached_employees (.ok []) 400
      (⟨[], 0⟩ : EmployeeCacheState) = (.ok [], ⟨[], 400⟩, true) := by
    unfold get_cached_employees
    rw [if_pos (Or.inr rfl)]
    rfl
  constructor
  · rw [hfirst]
    show (get_cached_employees (.ok []) 401
      (⟨[], 400⟩ : EmployeeCacheState)).2.2 = true
    unfold get_cached_employees
    rw [if_pos (Or.inr rfl)]
  · rw [hfirst]
    show (401 : ℚ) - 400 ≤ (300 : ℚ)
    norm_num

/-- C5: when the refresh condition holds and the bulk fetch raises, the
error propagates to the caller, the previously cached snapshot and the
last-refresh timestamp are unchanged, and any later call (at any time not
earlier than this one) attempts the fetch again. -/
theorem get_cached_employees_error_propagates (e : String) (t : ℚ)
    (s : EmployeeCacheState)
    (hcond : EMPLOYEE_CACHE_TTL < t - s.last_updated ∨
      s.employee_cache = []) :
    get_cached_employees (.error e) t s = (.error e, s, true) ∧
    (∀ (q' : Except String (List Employee)) (t' : ℚ), t ≤ t' →
      (get_cached_employees q' t' s).2.2 = true) := by
  constructor
  · unfold get_cached_employees
    rw [if_pos hcond]
  · intro q' t' hle
    have hcond' : EMPLOYEE_CACHE_TTL < t' - s.last_updated ∨
        s.employee_cache = [] := by
      rcases hcond with h | h
      · exact Or.inl (lt_of_lt_of_le h (by linarith))
      · exact Or.inr h
    unfold get_cached_employees
    rw [if_pos hcond']
    cases q' <;> rfl

/-- Witness for `get_cached_employees_error_propagates` at time 400 on the
initial state. -/
theorem get_cached_employees_error_propagates_witness :
    (EMPLOYEE_CACHE_TTL < (400 : ℚ) - (0 : ℚ) ∨
      ([] : List (String × Employee)) = []) ∧
    get_cached_employees (.error "boom") 400 ⟨[], 0⟩ =
      (.error "boom", ⟨[], 0⟩, true) := by
  have hc : EMPLOYEE_CACHE_TTL < (400 : ℚ) - (0 : ℚ) ∨
      ([] : List (String × Employee)) = [] := Or.inr rfl
  exact ⟨hc,
    (get_cached_employees_error_propagates "boom" 400 ⟨[], 0⟩ hc).1⟩

/-! ## Task ledger (`backend/app/utils/websocket.py`,
`backend/app/dependencies.py`) -/

/-- The cross-process ledger: `pending_futures` (dict future -> client_id,
modelled as an insertion-ordered association list with future handles as
naturals) and `client_pending_tasks` (dict client_id -> int counter). -/
structure TaskLedgerState where
  pending_futures : List (Nat × String)
  client_pending_tasks : List (String × Int)
deriving DecidableEq

/-- Both dicts start empty at process start. -/
def initialLedgerState : TaskLedgerState := ⟨[], []⟩

/-- Value of the per-client counter; 0 when the key is absent. -/
def counterOf : List (String × Int) → String → Int
  | [], _ => 0
  | p :: rest, c => if p.1 = c then p.2 else counterOf rest c

/-- Number of `pending_futures` entries referencing client `c`. -/
def countFor : List (Nat × String) → String → Nat
  | [], _ => 0
  | p :: rest, c => (if p.2 = c then 1 else 0) + countFor rest c

/-- Python `d[c] = d.get(c, 0) + 1`: bump the entry in place when the key
is present, insert the key with value 1 at the end otherwise. -/
def dictIncr : List (String × Int) → String → List (String × Int)
  | [], c => [(c, 1)]
  | p :: rest, c =>
      if p.1 = c then (p.1, p.2 + 1) :: rest else p :: dictIncr rest c

/-- The decrement of `handle_future_completion`:
`if client_id in client_pending_tasks: client_pending_tasks[client_id] =
max(0, client_pending_tasks[client_id] - 1)` — clamped at zero in place,
a no-op when the key is absent. -/
def dictDecrClamp : List (String × Int) → String → List (String × Int)
  | [], _ => []
  | p :: rest, c =>
      if p.1 = c then (p.1, max 0 (p.2 - 1)) :: rest
      else p :: dictDecrClamp rest c

/-- The `finally` block of `handle_future_completion`: scan
`pending_futures.items()` in order, delete the first entry whose value is
this client, then break; a no-op when no entry references the client. -/
def removeFirstFutureFor : List (Nat × String) → String → List (Nat × String)
  | [], _ => []
  | p :: rest, c =>
      if p.2 = c then rest else p :: removeFirstFutureFor rest c

/-- Modelled from the spec: the submission entry point
(`submit_image_for_matching(connectionId, image) -> taskHandle`, not under
src/) registers the pending future (`pending_futures[handle] =
connectionId`) and increments the connection's pending-task counter. -/
def submit_image_for_matching (s : TaskLedgerState) (f : Nat) (c : String) :
    TaskLedgerState :=
  ⟨s.pending_futures ++ [(f, c)], dictIncr s.client_pending_tasks c⟩

/-- Embedding of `handle_future_completion`'s effect on the ledger:
`raised` tells whether `future.result()` raised. On the success path the
counter decrement runs in the `try` block; on the error path the same
decrement runs in the `except` block; the `finally` block then removes one
pending-future entry for the client. The queue messages the two paths emit
are modelled with the response consumer; here the two source branches are
kept separate. -/
def handle_future_completion (raised : Bool) (s : TaskLedgerState)
    (c : String) : TaskLedgerState :=
  if raised then
    ⟨removeFirstFutureFor s.pending_futures c,
      dictDecrClamp s.client_pending_tasks c⟩
  else
    ⟨removeFirstFutureFor s.pending_futures c,
      dictDecrClamp s.client_pending_tasks c⟩

lemma handle_future_completion_eq (raised : Bool) (s : TaskLedgerState)
    (c : String) :
    handle_future_completion raised s c =
      ⟨removeFirstFutureFor s.pending_futures c,
        dictDecrClamp s.client_pending_tasks c⟩ := by
  cases raised <;> rfl

/-- One ledger operation: a submission or a future completion (successful
or raised). -/
inductive LedgerOp where
  | submit (f : Nat) (c : String)
  | complete (raised : Bool) (c : String)

/-- Run a sequence of ledger operations from a state. -/
def runLedger (s : TaskLedgerState) : List LedgerOp → TaskLedgerState
  | [] => s
  | LedgerOp.submit f c :: ops =>
      runLedger (submit_image_for_matching s f c) ops
  | LedgerOp.complete r c :: ops =>
      runLedger (handle_future_completion r s c) ops

/-- Well-formed operation sequences: a submission uses a fresh future
handle (future objects are distinct), and a completion callback fires only
for a client with an outstanding pending future (each submitted future
completes exactly once, and its registration is outstanding until a
completion for its client consumes one entry). -/
inductive ValidOps : TaskLedgerState → List LedgerOp → Prop where
  | nil (s : TaskLedgerState) : ValidOps s []
  | submit (s : TaskLedgerState) (f : Nat) (c : String) (ops : List LedgerOp)
      (hf : ∀ p ∈ s.pending_futures, p.1 ≠ f)
      (h : ValidOps (submit_image_for_matching s f c) ops) :
      ValidOps s (LedgerOp.submit f c :: ops)
  | complete (s : TaskLedgerState) (r : Bool) (c : String)
      (ops : List LedgerOp)
      (hc : ∃ p ∈ s.pending_futures, p.2 = c)
      (h : ValidOps (handle_future_completion r s c) ops) :
      ValidOps s (LedgerOp.complete r c :: ops)

/-- The ledger invariant: for every client, the counter equals the number
of pending-future entries referencing that client. -/
def LedgerInv (s : TaskLedgerState) : Prop :=
  ∀ c, counterOf s.client_pending_tasks c =
    (countFor s.pending_futures c : Int)

lemma counterOf_dictIncr_self (d : List (String × Int)) (c : String) :
    counterOf (dictIncr d c) c = counterOf d c + 1 := by
  induction d with
  | nil => simp [dictIncr, counterOf]
  | cons p rest ih =>
      by_cases hp : p.1 = c
      · simp [dictIncr, counterOf, hp]
      · simp [dictIncr, counterOf, hp, ih]

lemma counterOf_dictIncr_other (d : List (String × Int)) (c c' : String)
    (hne : c' ≠ c) : counterOf (dictIncr d c) c' = counterOf d c' := by
  induction d with
  | nil => simp [dictIncr, counterOf, Ne.symm hne]
  | cons p rest ih =>
      by_cases hp : p.1 = c
      · have hp' : ¬ p.1 = c' := by rw [hp]; exact Ne.symm hne
        simp [dictIncr, counterOf, hp, hp', Ne.symm hne]
      · by_cases hq : p.1 = c'
        · simp [dictIncr, counterOf, hp, hq, hne]
        · simp [dictIncr, counterOf, hp, hq, ih]

lemma counterOf_dictDecrClamp_self (d : List (String × Int)) (c : String) :
    counterOf (dictDecrClamp d c) c = max 0 (counterOf d c - 1) := by
  induction d with
  | nil => simp [dictDecrClamp, counterOf]
  | cons p rest ih =>
      by_cases hp : p.1 = c
      · simp [dictDecrClamp, counterOf, hp]
      · simp [dictDecrClamp, counterOf, hp, ih]

lemma counterOf_dictDecrClamp_other (d : List (String × Int))
    (c c' : String) (hne : c' ≠ c) :
    counterOf (dictDecrClamp d c) c' = counterOf d c' := by
  induction d with
  | nil => simp [dictDecrClamp]
  | cons p rest ih =>
      by_cases hp : p.1 = c
      · have hp' : ¬ p.1 = c' := by rw [hp]; exact Ne.symm hne
        simp [dictDecrClamp, counterOf, hp, hp', Ne.symm hne]
      · by_cases hq : p.1 = c'
        · simp [dictDecrClamp, counterOf, hp, hq, hne]
        · simp [dictDecrClamp, counterOf, hp, hq, ih]

lemma countFor_append_self (pf : List (Nat × String)) (f : Nat)
    (c : String) : countFor (pf ++ [(f, c)]) c = countFor pf c + 1 := by
  induction pf with
  | nil => simp [countFor]
  | cons p rest ih => simp [countFor, ih]; omega

lemma countFor_append_other (pf : List (Nat × String)) (f : Nat)
    (c c' : String) (hne : c' ≠ c) :
    countFor (pf ++ [(f, c)]) c' = countFor pf c' := by
  induction pf with
  | nil => simp [countFor, Ne.symm hne]
  | cons p rest ih => simp [countFor, ih]

lemma countFor_removeFirst_self (pf : List (Nat × String)) (c : String)
    (h : 0 < countFor pf c) :
    countFor (removeFirstFutureFor pf c) c = countFor pf c - 1 := by
  induction pf with
  | nil => simp [countFor] at h
  | cons p rest ih =>
      by_cases hp : p.2 = c
      · simp [removeFirstFutureFor, countFor, hp]
      · have h' : 0 < countFor rest c := by
          simpa [countFor, hp] using h
        simp [removeFirstFutureFor, countFor, hp, ih h']

lemma countFor_removeFirst_other (pf : List (Nat × String))
    (c c' : String) (hne : c' ≠ c) :
    countFor (removeFirstFutureFor pf c) c' = countFor pf c' := by
  induction pf with
  | nil => rfl
  | cons p rest ih =>
      by_cases hp : p.2 = c
      · have hp' : ¬ p.2 = c' := by rw [hp]; exact Ne.symm hne
        simp [removeFirstFutureFor, countFor, hp, hp', Ne.symm hne]
      · simp [removeFirstFutureFor, countFor, hp, ih]

lemma countFor_pos_of_mem (pf : List (Nat × String)) (c : String)
    (h : ∃ p ∈ pf, p.2 = c) : 0 < countFor pf c := by
  induction pf with
  | nil => obtain ⟨p, hp, _⟩ := h; exact absurd hp (List.not_mem_nil p)
  | cons p rest ih =>
      obtain ⟨q, hq, hqc⟩ := h
      rcases List.mem_cons.1 hq with hq | hq
      · subst hq; simp [countFor, hqc]
      · by_cases hp : p.2 = c
        · simp [countFor, hp]
        · simpa [countFor, hp] using ih ⟨q, hq, hqc⟩

lemma ledgerInv_submit (s : TaskLedgerState) (f : Nat) (c : String)
    (h : LedgerInv s) : LedgerInv (submit_image_for_matching s f c) := by
  intro c'
  unfold submit_image_for_matching
  dsimp only
  by_cases hc : c' = c
  · subst hc
    rw [counterOf_dictIncr_self, countFor_append_self, h c']
    push_cast
    ring
  · rw [counterOf_dictIncr_other _ _ _ hc,
      countFor_append_other _ _ _ _ hc, h c']

lemma ledgerInv_complete (r : Bool) (s : TaskLedgerState) (c : String)
    (hpre : 0 < countFor s.pending_futures c) (h : LedgerInv s) :
    LedgerInv (handle_future_completion r s c) := by
  rw [handle_future_completion_eq]
  intro c'
  dsimp only
  by_cases hc : c' = c
  · subst hc
    rw [counterOf_dictDecrClamp_self, countFor_removeFirst_self _ _ hpre,
      h c']
    have h1 : (1 : Int) ≤ (countFor s.pending_futures c' : Int) := by
      exact_mod_cast hpre
    omega
  · rw [counterOf_dictDecrClamp_other _ _ _ hc,
      countFor_removeFirst_other _ _ _ hc, h c']

lemma ledgerInv_runLedger (s : TaskLedgerState) (ops : List LedgerOp)
    (hinv : LedgerInv s) (h : ValidOps s ops) :
    LedgerInv (runLedger s ops) := by
  induction ops generalizing s with
  | nil => exact hinv
  | cons op rest ih =>
      cases op with
      | submit f c =>
          cases h with
          | submit _ _ _ _ hf hrest =>
              exact ih _ (ledgerInv_submit s f c hinv) hrest
      | complete r c =>
          cases h with
          | complete _ _ _ _ hc hrest =>
              exact ih _
                (ledgerInv_complete r s c (countFor_pos_of_mem _ _ hc) hinv)
                hrest

/-- C1: after any well-formed sequence of submissions and completions
(raised or not), every client's pending-task counter is nonnegative and
equals the number of pending-future entries referencing that client; and
the success path and the error path of `handle_future_completion` have the
identical (single-decrement, clamped) effect on the ledger. -/
theorem pending_task_counter_invariant (ops : List LedgerOp)
    (h : ValidOps initialLedgerState ops) :
    (∀ c, 0 ≤ counterOf
      (runLedger initialLedgerState ops).client_pending_tasks c) ∧
    (∀ c, counterOf
        (runLedger initialLedgerState ops).client_pending_tasks c =
      (countFor (runLedger initialLedgerState ops).pending_futures c :
        Int)) ∧
    (∀ (r1 r2 : Bool) (s : TaskLedgerState) (c : String),
      handle_future_completion r1 s c = handle_future_completion r2 s c) := by
  have hinv : LedgerInv (runLedger initialLedgerState ops) :=
    ledgerInv_runLedger initialLedgerState ops (fun c => rfl) h
  refine ⟨?_, hinv, ?_⟩
  · intro c
    rw [hinv c]
    exact_mod_cast Nat.zero_le _
  · intro r1 r2 s c
    rw [handle_future_completion_eq, handle_future_completion_eq]

/-- Witness for `pending_task_counter_invariant`: two submissions for one
client followed by a successful and a raised completion. -/
theorem pending_task_counter_invariant_witness :
    ValidOps initialLedgerState
      [LedgerOp.submit 1 "a", LedgerOp.submit 2 "a",
       LedgerOp.complete false "a", LedgerOp.complete true "a"] ∧
    ∀ c, 0 ≤ counterOf (runLedger initialLedgerState
      [LedgerOp.submit 1 "a", LedgerOp.submit 2 "a",
       LedgerOp.complete false "a", LedgerOp.complete true "a"]
      ).client_pending_tasks c := by
  have hv : ValidOps initialLedgerState
      [LedgerOp.submit 1 "a", LedgerOp.submit 2 "a",
       LedgerOp.complete false "a", LedgerOp.complete true "a"] :=
    ValidOps.submit _ _ _ _ (by decide) <|
      ValidOps.submit _ _ _ _ (by decide) <|
        ValidOps.complete _ _ _ _ (by decide) <|
          ValidOps.complete _ _ _ _ (by decide) (ValidOps.nil _)
  exact ⟨hv, (pending_task_counter_invariant _ hv).1⟩

/-! ## Connection registry and broadcaster
(`backend/app/utils/websocket.py`) -/

/-- Dict-style lookup in a string-keyed association list (Python
`d.get(k)` and `k in d`). -/
def lookupStr : List (String × String) → String → Option String
  | [], _ => none
  | p :: rest, k => if p.1 = k then some p.2 else lookupStr rest k

/-- The objectId patch at the top of `broadcast_attendance_update`: for a
`delete` action whose payload lacks `objectId`, copy `attendance_id` into
`objectId` when present. -/
def patch_delete_objectId (d : List (String × String)) :
    List (String × String) :=
  if lookupStr d "action" = some "delete" ∧ lookupStr d "objectId" = none
  then
    match lookupStr d "attendance_id" with
    | some v => d ++ [("objectId", v)]
    | none => d
  else d

/-- Python `del active_connections[client_id]` guarded by
`if client_id in active_connections`: remove the entry when present, no-op
otherwise. -/
def removeClient {κ : Type} : List (String × κ) → String → List (String × κ)
  | [], _ => []
  | p :: rest, c => if p.1 = c then rest else p :: removeClient rest c

/-- Observable outcome of one `broadcast_attendance_update` call:
the broadcast envelope payload (none when there was no connection to send
to), the clients a send was attempted for, the clients found disconnected,
and the registry afterwards. -/
structure BroadcastOutcome (κ : Type) where
  message_data : Option (List (String × String))
  attempted : List String
  disconnected : List String
  active_after : List (String × κ)
deriving DecidableEq

/-- Embedding of `broadcast_attendance_update`: an early return when the
registry is empty; otherwise the payload is patched, a send task is
created for every registered connection and awaited via `gather`,
`disconnected_clients` collects the clients whose send returned False or
raised (`deliver` gives the per-client send outcome; `False` covers both,
since `_send_message_to_client` maps exceptions to False and
`return_exceptions=True` turns raised tasks into failure results), and
each of them is deleted from the registry if still present. -/
def broadcast_attendance_update {κ : Type} (deliver : String → Bool)
    (active : List (String × κ)) (attendance_data : List (String × String)) :
    BroadcastOutcome κ :=
  if active.isEmpty then ⟨none, [], [], active⟩
  else
    let message_data := patch_delete_objectId attendance_data
    let disconnected := (active.filter (fun p => ! deliver p.1)).map Prod.fst
    ⟨some message_data, active.map Prod.fst, disconnected,
      disconnected.foldl (fun acc c => removeClient acc c) active⟩

lemma foldl_removeClient_cons {κ : Type} (p : String × κ)
    (cs : List String) (h : ∀ c ∈ cs, c ≠ p.1) :
    ∀ (rest : List (String × κ)),
    cs.foldl (fun acc c => removeClient acc c) (p :: rest) =
      p :: cs.foldl (fun acc c => removeClient acc c) rest := by
  induction cs with
  | nil => intro rest; rfl
  | cons c cs ih =>
      intro rest
      have hc : c ≠ p.1 := h c (List.mem_cons_self c cs)
      rw [List.foldl_cons, List.foldl_cons]
      have hr : removeClient (p :: rest) c = p :: removeClient rest c := by
        simp only [removeClient]
        rw [if_neg (fun he => hc he.symm)]
      rw [hr]
      exact ih (fun c' h' => h c' (List.mem_cons_of_mem c h')) _

lemma foldl_removeClient_filter {κ : Type} (deliver : String → Bool)
    (active : List (String × κ)) :
    ((active.filter (fun p => ! deliver p.1)).map Prod.fst).foldl
      (fun acc c => removeClient acc c) active =
    active.filter (fun p => deliver p.1) := by
  induction active with
  | nil => rfl
  | cons p rest ih =>
      cases hd : deliver p.1 with
      | true =>
          have hfail : (p :: rest).filter (fun q => ! deliver q.1) =
              rest.filter (fun q => ! deliver q.1) := by
            rw [List.filter_cons]
            simp [hd]
          rw [hfail]
          have hkeys : ∀ c ∈ (rest.filter
              (fun q => ! deliver q.1)).map Prod.fst, c ≠ p.1 := by
            intro c hc he
            obtain ⟨q, hq, hqc⟩ := List.mem_map.1 hc
            have hqf := List.of_mem_filter hq
            rw [hqc, he, hd] at hqf
            exact absurd hqf (by simp)
          rw [foldl_removeClient_cons p _ hkeys rest, ih,
            List.filter_cons]
          simp [hd]
      | false =>
          have hfail : (p :: rest).filter (fun q => ! deliver q.1) =
              p :: rest.filter (fun q => ! deliver q.1) := by
            rw [List.filter_cons]
            simp [hd]
          rw [hfail, List.map_cons, List.foldl_cons]
          have hr : removeClient (p :: rest) p.1 = rest := by
            simp [removeClient]
          rw [hr, ih, List.filter_cons]
          simp [hd]

lemma removeClient_not_mem {κ : Type} (l : List (String × κ)) (c : String)
    (h : c ∉ l.map Prod.fst) : removeClient l c = l := by
  induction l with
  | nil => rfl
  | cons p rest ih =>
      have hp : ¬ p.1 = c := by
        intro he
        apply h
        rw [List.map_cons, he]
        exact List.mem_cons_self c _
      have hrest : c ∉ rest.map Prod.fst := by
        intro hm
        apply h
        rw [List.map_cons]
        exact List.mem_cons_of_mem _ hm
      simp only [removeClient]
      rw [if_neg hp, ih hrest]

lemma not_mem_removeClient {κ : Type} (l : List (String × κ)) (c : String)
    (hnd : (l.map Prod.fst).Nodup) : c ∉ (removeClient l c).map Prod.fst := by
  induction l with
  | nil => simp [removeClient]
  | cons p rest ih =>
      rw [List.map_cons, List.nodup_cons] at hnd
      by_cases hp : p.1 = c
      · simp only [removeClient]
        rw [if_pos hp]
        rw [hp] at hnd
        exact hnd.1
      · simp only [removeClient]
        rw [if_neg hp, List.map_cons]
        intro hm
        rcases List.mem_cons.1 hm with hm | hm
        · exact hp hm.symm
        · exact ih hnd.2 hm

/-- C6: one broadcast attempts a delivery to every registered connection;
afterwards the registry holds exactly the connections whose delivery
succeeded, the disconnected list is exactly the failed ones, every
connection received the (patched) broadcast payload when the registry was
nonempty, and the registry removal used for eviction is idempotent on
unique-keyed registries. -/
theorem broadcast_attendance_update_spec {κ : Type}
    (deliver : String → Bool) (active : List (String × κ))
    (attendance_data : List (String × String)) :
    (broadcast_attendance_update deliver active attendance_data).attempted =
      active.map Prod.fst ∧
    (broadcast_attendance_update deliver active
        attendance_data).active_after =
      active.filter (fun p => deliver p.1) ∧
    (broadcast_attendance_update deliver active
        attendance_data).disconnected =
      (active.filter (fun p => ! deliver p.1)).map Prod.fst ∧
    (active ≠ [] →
      (broadcast_attendance_update deliver active
          attendance_data).message_data =
        some (patch_delete_objectId attendance_data)) ∧
    (∀ (l : List (String × κ)) (c : String), (l.map Prod.fst).Nodup →
      removeClient (removeClient l c) c = removeClient l c) := by
  refine ⟨?_, ?_, ?_, ?_, ?_⟩
  · unfold broadcast_attendance_update
    cases active with
    | nil => rfl
    | cons p rest => rfl
  · unfold broadcast_attendance_update
    cases active with
    | nil => rfl
    | cons p rest =>
        simp only [List.isEmpty_cons, if_false, Bool.false_eq_true]
        exact foldl_removeClient_filter deliver (p :: rest)
  · unfold broadcast_attendance_update
    cases active with
    | nil => rfl
    | cons p rest => rfl
  · intro hne
    unfold broadcast_attendance_update
    cases active with
    | nil => exact absurd rfl hne
    | cons p rest => rfl
  · intro l c hnd
    exact removeClient_not_mem _ _ (not_mem_removeClient l c hnd)

/-- Witness for `broadcast_attendance_update_spec`: three registered
connections with delivery to connection 2 failing; 1 and 3 stay
registered, 2 is evicted. -/
theorem broadcast_attendance_update_spec_witness :
    (broadcast_attendance_update (fun c => ! (c == "2"))
        ([("1", 0), ("2", 0), ("3", 0)] : List (String × Nat))
        []).active_after = [("1", 0), ("3", 0)] ∧
    (([("1", 0), ("2", 0), ("3", 0)] : List (String × Nat)) ≠ []) ∧
    (broadcast_attendance_update (fun c => ! (c == "2"))
        ([("1", 0), ("2", 0), ("3", 0)] : List (String × Nat))
        []).message_data = some (patch_delete_objectId []) := by
  have h := broadcast_attendance_update_spec (fun c => ! (c == "2"))
    ([("1", 0), ("2", 0), ("3", 0)] : List (String × Nat)) []
  refine ⟨?_, by simp, h.2.2.2.1 (by simp)⟩
  rw [h.2.1]
  rfl

/-! ## Response consumer (`process_websocket_responses`) -/

/-- A processed-user entry as consumed by the notification builder:
`user.get('name', 'Unknown')` and `user.get('employee_id', 'Unknown')`
read optional keys. -/
structure ProcessedUser where
  name : Option String
  employee_id : Option String
deriving DecidableEq

/-- One message popped from the websocket responses queue; `error` present
marks an error response, otherwise the success fields are read. The
side-effect events are the `attendance_updates` payload (element type
`υ`). -/
structure ResponseItem (υ : Type) where
  client_id : String
  error : Option String
  processed_users : List ProcessedUser
  attendance_updates : List υ
  no_face_count : Nat

/-- A payload sent directly to the target client by the response
consumer. -/
inductive WsMessage where
  | processing_error (message : String)
  | no_face_detected
  | no_matching_users
  | multiple_users (users : List ProcessedUser)
deriving DecidableEq

/-- A `send_notification` payload: notification_type and human-readable
message. -/
structure NotificationMsg where
  notification_type : String
  message : String
deriving DecidableEq

/-- Observable effects of handling one popped response item: payloads sent
to the target client, notifications sent, whether the client was evicted
from the registry, messages put on the event queue
(`processing_results_queue`), and payloads broadcast directly via
`broadcast_attendance_update`. -/
structure HandlerOutcome (υ : Type) where
  sent : List WsMessage
  notifications : List NotificationMsg
  evicted : Bool
  enqueued_events : List (List υ)
  direct_broadcasts : List (List υ)
deriving DecidableEq

/-- The success notification for exactly one recognized user:
`f"Face detected: \x7bname\x7d (ID: \x7bemployee_id\x7d)"`. -/
def singleUserNotificationText (u : ProcessedUser) : String :=
  "Face detected: " ++ u.name.getD "Unknown" ++ " (ID: " ++
    u.employee_id.getD "Unknown" ++ ")"

/-- The success notification for several recognized users:
`f"Multiple faces detected: \x7bn\x7d people identified"`. -/
def multiUserNotificationText (n : Nat) : String :=
  "Multiple faces detected: " ++ toString n ++ " people identified"

/-- Embedding of the per-item handling of `process_websocket_responses`:
a message whose client is no longer registered is dropped; an error item
yields a processing_error send plus an error notification; an empty
result yields no_face_detected or no_matching_users (by the no-face
count) plus a warning notification; a non-empty result yields the full
user list, a success notification (singular or plural) and — when the
item carries attendance updates — a direct `broadcast_attendance_update`
call. `always` is true iff the send to the target client succeeded;
eviction follows a failed send. Nothing is ever put on the event queue by
this handler. -/
def handle_response_item {υ : Type} (active : List String) (sendOk : Bool)
    (item : ResponseItem υ) : HandlerOutcome υ :=
  if item.client_id ∈ active then
    match item.error with
    | some e =>
        ⟨[WsMessage.processing_error e],
          [⟨"error", "Error processing: " ++ e⟩], ! sendOk, [], []⟩
    | none =>
        if item.processed_users.isEmpty then
          if 0 < item.no_face_count then
            ⟨[WsMessage.no_face_detected],
              [⟨"warning", "No face detected in the image"⟩],
              ! sendOk, [], []⟩
          else
            ⟨[WsMessage.no_matching_users],
              [⟨"warning", "No matching users found"⟩],
              ! sendOk, [], []⟩
        else
          ⟨[WsMessage.multiple_users item.processed_users],
            [⟨"success",
              if item.processed_users.length = 1 then
                singleUserNotificationText
                  (item.processed_users.headD ⟨none, none⟩)
              else multiUserNotificationText item.processed_users.length⟩],
            ! sendOk, [],
            if item.attendance_updates.isEmpty then []
            else [item.attendance_updates]⟩
  else ⟨[], [], false, [], []⟩

/-- C3 (amended): the response consumer drops messages for absent
connections without error; classifies error, empty-with-no-face,
empty-with-faces and non-empty results exactly as claimed, with singular
versus plural success phrasing; and side-effect events included in a
non-empty result are broadcast directly by an immediate
`broadcast_attendance_update` call — they are not forwarded to the event
queue, on which this handler never puts anything. -/
theorem process_websocket_responses_cases {υ : Type}
    (active : List String) (sendOk : Bool) (item : ResponseItem υ) :
    (item.client_id ∉ active →
      handle_response_item active sendOk item = ⟨[], [], false, [], []⟩) ∧
    (∀ e, item.client_id ∈ active → item.error = some e →
      handle_response_item active sendOk item =
        ⟨[WsMessage.processing_error e],
          [⟨"error", "Error processing: " ++ e⟩], ! sendOk, [], []⟩) ∧
    (item.client_id ∈ active → item.error = none →
      item.processed_users = [] → 0 < item.no_face_count →
      handle_response_item active sendOk item =
        ⟨[WsMessage.no_face_detected],
          [⟨"warning", "No face detected in the image"⟩],
          ! sendOk, [], []⟩) ∧
    (item.client_id ∈ active → item.error = none →
      item.processed_users = [] → item.no_face_count = 0 →
      handle_response_item active sendOk item =
        ⟨[WsMessage.no_matching_users],
          [⟨"warning", "No matching users found"⟩], ! sendOk, [], []⟩) ∧
    (item.client_id ∈ active → item.error = none →
      item.processed_users ≠ [] →
      handle_response_item active sendOk item =
        ⟨[WsMessage.multiple_users item.processed_users],
          [⟨"success",
            if item.processed_users.length = 1 then
              singleUserNotificationText
                (item.processed_users.headD ⟨none, none⟩)
            else multiUserNotificationText item.processed_users.length⟩],
          ! sendOk, [],
          if item.attendance_updates.isEmpty then []
          else [item.attendance_updates]⟩) ∧
    (handle_response_item active sendOk item).enqueued_events = [] := by
  refine ⟨?_, ?_, ?_, ?_, ?_, ?_⟩
  · intro hm
    unfold handle_response_item
    rw [if_neg hm]
  · intro e hm he
    unfold handle_response_item
    rw [if_pos hm, he]
  · intro hm he hp hn
    unfold handle_response_item
    rw [if_pos hm, he]
    simp only [hp, List.isEmpty_nil, if_true, hn, if_pos hn]
  · intro hm he hp hn
    unfold handle_response_item
    rw [if_pos hm, he]
    simp only [hp, List.isEmpty_nil, if_true, hn]
    norm_num
  · intro hm he hp
    unfold handle_response_item
    rw [if_pos hm, he]
    have : item.processed_users.isEmpty = false := by
      cases hu : item.processed_users with
      | nil => exact absurd hu hp
      | cons a l => rfl
    simp only [this, Bool.false_eq_true, if_false]
  · unfold handle_response_item
    by_cases hm : item.client_id ∈ active
    · rw [if_pos hm]
      cases item.error with
      | some e => rfl
      | none =>
          cases hu : item.processed_users.isEmpty with
          | true =>
              simp only [if_true]
              by_cases hn : 0 < item.no_face_count
              · rw [if_pos hn]
              · rw [if_neg hn]
          | false => simp only [Bool.false_eq_true, if_false]
    · rw [if_neg hm]

/-- Witness for `process_websocket_responses_cases` on a concrete
connected client with an empty result and two face detections. -/
theorem process_websocket_responses_cases_witness :
    (("c1" ∈ ["c1"]) ∧
      (ResponseItem.error (υ := Nat) ⟨"c1", none, [], [], 2⟩ = none) ∧
      (ResponseItem.processed_users (υ := Nat) ⟨"c1", none, [], [], 2⟩ =
        []) ∧
      0 < ResponseItem.no_face_count (υ := Nat) ⟨"c1", none, [], [], 2⟩) ∧
    handle_response_item ["c1"] true
        (⟨"c1", none, [], [], 2⟩ : ResponseItem Nat) =
      ⟨[WsMessage.no_face_detected],
        [⟨"warning", "No face detected in the image"⟩], false, [], []⟩ := by
  have h := process_websocket_responses_cases (υ := Nat) ["c1"] true
    ⟨"c1", none, [], [], 2⟩
  exact ⟨⟨by simp, rfl, rfl, by norm_num⟩,
    h.2.2.1 (by simp) rfl rfl (by norm_num)⟩

/-- Counterexample to C3 as stated: a non-empty result carrying
side-effect events leads to a direct broadcast call, but nothing is
forwarded to the event queue. -/
theorem response_event_queue_counterexample :
    (handle_response_item ["c1"] true
      (⟨"c1", none, [⟨some "A", some "7"⟩], [42], 0⟩ : ResponseItem Nat)
      ).enqueued_events = [] ∧
    (handle_response_item ["c1"] true
      (⟨"c1", none, [⟨some "A", some "7"⟩], [42], 0⟩ : ResponseItem Nat)
      ).direct_broadcasts = [[42]] ∧
    ([42] : List Nat) ≠ [] := by
  refine ⟨rfl, rfl, by simp⟩

/-! ## Queue relay (`backend/app/dependencies.py`) -/

/-- Source constant: `processing_results_queue = manager.Queue(maxsize=100)`. -/
def processing_results_queue_maxsize : Nat := 100

/-- Source constant: `websocket_responses_queue = manager.Queue(maxsize=100)`. -/
def websocket_responses_queue_maxsize : Nat := 100

/-- A put on a bounded manager queue: appends when below capacity,
otherwise returns `none` — the caller blocks (or gets Full) and the queue
does not grow. -/
def queuePut {α : Type} (maxsize : Nat) (q : List α) (x : α) :
    Option (List α) :=
  if q.length < maxsize then some (q ++ [x]) else none

/-- A get on a queue: pops the oldest item, `none` when empty. -/
def queueGet {α : Type} (q : List α) : Option (α × List α) :=
  match q with
  | [] => none
  | x :: rest => some (x, rest)

/-- A queue operation issued by a producer or a consumer. -/
inductive QueueOp (α : Type) where
  | put (x : α)
  | get

/-- Run a sequence of queue operations: a rejected put leaves the queue
unchanged (the producer blocks), a get on an empty queue leaves it
unchanged. -/
def runQueue {α : Type} (maxsize : Nat) : List α → List (QueueOp α) → List α
  | q, [] => q
  | q, QueueOp.put x :: ops =>
      runQueue maxsize
        (match queuePut maxsize q x with
         | some q' => q'
         | none => q) ops
  | q, QueueOp.get :: ops =>
      runQueue maxsize
        (match queueGet q with
         | some r => r.2
         | none => q) ops

lemma runQueue_length_le {α : Type} (maxsize : Nat)
    (ops : List (QueueOp α)) :
    ∀ (q : List α), q.length ≤ maxsize →
    (runQueue maxsize q ops).length ≤ maxsize := by
  induction ops with
  | nil => intro q hq; exact hq
  | cons op ops ih =>
      intro q hq
      cases op with
      | put x =>
          show (runQueue maxsize
            (match queuePut maxsize q x with
             | some q' => q'
             | none => q) ops).length ≤ maxsize
          unfold queuePut
          by_cases hl : q.length < maxsize
          · rw [if_pos hl]
            exact ih _ (by simpa using Nat.succ_le_of_lt hl)
          · rw [if_neg hl]
            exact ih _ hq
      | get =>
          show (runQueue maxsize
            (match queueGet q with
             | some r => r.2
             | none => q) ops).length ≤ maxsize
          cases q with
          | nil => exact ih _ hq
          | cons x rest =>
              exact ih _ (le_trans (Nat.le_succ _) (by simpa using hq))

/-- C7: both relay queues are created with capacity 100; a put on a queue
already holding its capacity is rejected rather than growing the queue,
so under any operation sequence the length never exceeds 100; and popping
one item from a full queue restores acceptance of a new item. -/
theorem queue_relay_bounded {α : Type} :
    processing_results_queue_maxsize = 100 ∧
    websocket_responses_queue_maxsize = 100 ∧
    (∀ (ops : List (QueueOp α)), (runQueue 100 [] ops).length ≤ 100) ∧
    (∀ (q : List α) (x : α), q.length = 100 → queuePut 100 q x = none) ∧
    (∀ (q : List α) (x y : α) (rest : List α), q.length = 100 →
      queueGet q = some (x, rest) →
      ∃ q', queuePut 100 rest y = some q') := by
  refine ⟨rfl, rfl, ?_, ?_, ?_⟩
  · intro ops
    exact runQueue_length_le 100 ops [] (by simp)
  · intro q x hq
    unfold queuePut
    rw [if_neg (by omega)]
  · intro q x y rest hq hg
    cases q with
    | nil => exact absurd hg (by simp [queueGet])
    | cons a l =>
        have hrl : rest = l := by
          have h2 : x = a ∧ rest = l := by
            simpa [queueGet] using hg.symm
          exact h2.2
        subst hrl
        have hlen : rest.length = 99 := by
          simpa using hq
        refine ⟨rest ++ [y], ?_⟩
        unfold queuePut
        rw [if_pos (by omega)]

/-- Witness for `queue_relay_bounded`: a put on a full 100-element queue
is rejected. -/
theorem queue_relay_bounded_witness :
    (List.replicate 100 (0 : Nat)).length = 100 ∧
    queuePut 100 (List.replicate 100 (0 : Nat)) 7 = none :=
  ⟨by simp,
    (queue_relay_bounded (α := Nat)).2.2.2.1 _ _ (by simp)⟩

/-! ## Consumer loops (`process_queue`, `process_websocket_responses`) -/

/-- Control result of one iteration of a consumer loop: either the loop
continues after sleeping the given number of seconds, or it exits. The
exit constructor exists only to state that the source loops never produce
it. -/
inductive LoopControl where
  | cont (sleep_seconds : ℚ)
  | exit
deriving DecidableEq

/-- One iteration of the `while True` body of `process_queue`:
`queue_empty` is the poll result and `processing` the outcome of handling
the popped item (broadcasting may raise). The `except Exception` handler
converts every error into a 1-second back-off and the loop continues; the
normal path sleeps 0.1 seconds. No path exits the loop. -/
def process_queue_iteration (queue_empty : Bool)
    (processing : Except String Unit) : LoopControl :=
  if queue_empty then LoopControl.cont (1/10)
  else
    match processing with
    | Except.ok _ => LoopControl.cont (1/10)
    | Except.error _ => LoopControl.cont 1

/-- One iteration of the `while True` body of
`process_websocket_responses`, with the same catch-log-back-off-continue
structure as `process_queue_iteration`. -/
def process_websocket_responses_iteration (queue_empty : Bool)
    (processing : Except String Unit) : LoopControl :=
  if queue_empty then LoopControl.cont (1/10)
  else
    match processing with
    | Except.ok _ => LoopControl.cont (1/10)
    | Except.error _ => LoopControl.cont 1

/-- Iterate a consumer loop for `n` iterations under a schedule of
per-iteration inputs, collecting each iteration's control result. -/
def loopRun (iteration : Nat → LoopControl) : Nat → List LoopControl
  | 0 => []
  | n + 1 => loopRun iteration n ++ [iteration n]

/-- C8: neither consumer loop ever exits or stays stopped after an error:
every iteration of both loops yields a continue — with a 1-second back-off
exactly when processing an item raised, and the normal 0.1-second poll
interval otherwise — and a run of any length completes all its
iterations, none of them an exit. -/
theorem consumer_loops_never_stop :
    (∀ (qe : Bool) (p : Except String Unit),
      process_queue_iteration qe p ≠ LoopControl.exit ∧
      process_websocket_responses_iteration qe p ≠ LoopControl.exit) ∧
    (∀ e, process_queue_iteration false (Except.error e) =
        LoopControl.cont 1 ∧
      process_websocket_responses_iteration false (Except.error e) =
        LoopControl.cont 1) ∧
    (∀ (qe : Bool),
      process_queue_iteration qe (Except.ok ()) =
        LoopControl.cont (1/10) ∧
      process_websocket_responses_iteration qe (Except.ok ()) =
        LoopControl.cont (1/10)) ∧
    (∀ (qes : Nat → Bool) (ps : Nat → Except String Unit) (n : Nat),
      (loopRun (fun i => process_queue_iteration (qes i) (ps i)) n).length
        = n ∧
      ∀ c ∈ loopRun (fun i => process_queue_iteration (qes i) (ps i)) n,
        c ≠ LoopControl.exit) := by
  have hne : ∀ (qe : Bool) (p : Except String Unit),
      process_queue_iteration qe p ≠ LoopControl.exit := by
    intro qe p
    unfold process_queue_iteration
    cases qe with
    | true => simp
    | false => cases p <;> simp
  have hne' : ∀ (qe : Bool) (p : Except String Unit),
      process_websocket_responses_iteration qe p ≠ LoopControl.exit := by
    intro qe p
    unfold process_websocket_responses_iteration
    cases qe with
    | true => simp
    | false => cases p <;> simp
  refine ⟨fun qe p => ⟨hne qe p, hne' qe p⟩, ?_, ?_, ?_⟩
  · intro e; exact ⟨rfl, rfl⟩
  · intro qe; cases qe <;> exact ⟨rfl, rfl⟩
  · intro qes ps n
    induction n with
    | zero => exact ⟨rfl, by intro c hc; exact absurd hc (by simp [loopRun])⟩
    | succ n ih =>
        constructor
        · simp only [loopRun, List.length_append, ih.1, List.length_cons,
            List.length_nil]
        · intro c hc
          rcases List.mem_append.1 hc with hc | hc
          · exact ih.2 c hc
          · rw [List.mem_singleton.1 hc]
            exact hne _ _

/-- Witness for `consumer_loops_never_stop`: a three-iteration run under a
schedule of raising items contains this iteration's control result, and it
is not an exit. -/
theorem consumer_loops_never_stop_witness :
    (process_queue_iteration false (Except.error "boom") ∈
      loopRun (fun i => process_queue_iteration ((fun _ => false) i)
        ((fun _ => Except.error "boom") i)) 3) ∧
    process_queue_iteration false (Except.error "boom") ≠
      LoopControl.exit := by
  have hm : process_queue_iteration false (Except.error "boom") ∈
      loopRun (fun i => process_queue_iteration ((fun _ => false) i)
        ((fun _ => Except.error "boom") i)) 3 := by
    simp [loopRun]
  exact ⟨hm,
    (consumer_loops_never_stop.2.2.2 (fun _ => false)
      (fun _ => Except.error "boom") 3).2 _ hm⟩
